import Mathlib

set_option maxRecDepth 8000

namespace YamlPath

/-! # Shallow embedding of `yamlpath` command sources

This file embeds the two command modules of the repository,
`src/yamlpath/commands/yaml_paths.py` (the document matcher
`search_for_paths`) and `src/yamlpath/commands/yaml_merge.py` (the merge
orchestrator: `validateargs`, `process_rhs`, `process_multidoc`, `main`),
and proves properties of the embedded code.

External collaborators that live in the `yamlpath` package but not under
`src/` (`ensure_escaped`, `search_matches`, `get_yaml_data`,
`Merger.merge_with`) are modelled from the spec; each such definition is
marked `Modelled from the spec:` in its doc comment. -/

/-! ## Data model of the document matcher (`yaml_paths.py`) -/

/-- A mapping key as produced by the round-trip parser: the scalar text of
the key together with an optional anchor name attached to the key node
itself. -/
structure SKey where
  anchor : Option String
  name : String
deriving DecidableEq, Repr

/-- A document node of the parsed tree: a scalar leaf carrying its opaque
text, a sequence (`CommentedSeq`) or a mapping (`CommentedMap`).  Every
node may carry an anchor name (Python: `node.anchor.value`, `none` when the
node has no `anchor` attribute or its value is `None`).  Merge-key folded
(inherited) mapping entries are not modelled, so `non_merged_items()` and
`items()` coincide on the embedded documents. -/
inductive Node where
  | scalar (anchor : Option String) (val : String)
  | seq (anchor : Option String) (elems : List Node)
  | map (anchor : Option String) (entries : List (SKey × Node))

/-- Python `hasattr(node, "anchor") and node.anchor.value is not None`,
returning the anchor name when present. -/
def Node.anchorName : Node → Option String
  | .scalar a _ => a
  | .seq a _ => a
  | .map a _ => a

/-- The `PathSeperators` choice: the two path separator conventions (`dot`, `fslash`). -/
inductive Sep where
  | dot
  | fslash
deriving DecidableEq, Repr

/-- Python `str(pathsep)`. -/
def strsep : Sep → String
  | .dot => "."
  | .fslash => "/"

/-- The active separator as a single character (both separators are
one-character strings). -/
def sepChar : Sep → Char
  | .dot => '.'
  | .fslash => '/'

/-- Escape every occurrence of `symbol` in a character list by prefixing a
backslash. -/
def escapeChar (symbol : Char) : List Char → List Char
  | [] => []
  | c :: rest =>
    if c = symbol then '\\' :: c :: escapeChar symbol rest
    else c :: escapeChar symbol rest

/-- Modelled from the spec: `ensure_escaped` is imported from
`yamlpath.func`, which is not under `src/`.  Per the spec, literal
occurrences of the given symbol are backslash-escaped
("literal occurrences of separator/bracket/anchor-marker characters inside
keys are backslash-escaped"). -/
def ensure_escaped (value : String) (symbol : Char) : String :=
  ⟨escapeChar symbol value.data⟩

/-- The key segment as rendered by `search_for_paths`
(`ensure_escaped(ensure_escaped(key, "\\"), strsep)`,
`yaml_paths.py` lines 230-231). -/
def render_key_segment (sep : Char) (key : String) : String :=
  ensure_escaped (ensure_escaped key '\\') sep

/-- The anchor-name segment as rendered by `search_for_paths`
(`ensure_escaped(anchor_name, strsep)`, `yaml_paths.py` line 192). -/
def render_anchor_segment (sep : Char) (anchor : String) : String :=
  ensure_escaped anchor sep

/-- A checker for escapedness: scan the character list, let every
backslash consume the character after it, and report `false` whenever an
unconsumed occurrence of `sym` remains. -/
def allEscaped (sym : Char) : List Char → Bool
  | [] => true
  | c :: rest =>
    if c = '\\' then
      match rest with
      | [] => true
      | _ :: rest2 => allEscaped sym rest2
    else
      decide (c ≠ sym) && allEscaped sym rest

/-- The search context of one `search_for_paths` run: the predicate
(`search_matches(method, term, candidate)` is external to `src/`, so it is
abstracted to a deterministic boolean function of the candidate's scalar
text, per the spec "A candidate matches iff `method(term, candidate)` XOR
`invert`"), the `invert` flag of the term, and the keyword flags of
`search_for_paths`. -/
structure SearchCtx where
  matchfn : String → Bool
  invert : Bool
  search_values : Bool
  search_keys : Bool
  include_aliases : Bool
  pathsep : Sep

/-- Python `(matches and not invert) or (invert and not matches)`
(`yaml_paths.py` lines 210, 237, 265). -/
def xorInvert (m invert : Bool) : Bool :=
  (m && !invert) || (invert && !m)

/-- Whether a sequence element is skipped by alias de-duplication:
its anchor has already been seen in this container's scan and the caller
did not ask for duplicate aliases (`yaml_paths.py` lines 182-185). -/
def skipEle (ctx : SearchCtx) (seen : List String) (ele : Node) : Bool :=
  match ele.anchorName with
  | some a => seen.contains a && !ctx.include_aliases
  | none => false

/-- The path of a sequence element: anchored elements are addressed
`[&name]`, others `[idx]` (`yaml_paths.py` lines 190-196; `bp` already ends
with the opening bracket). -/
def seqElePath (ctx : SearchCtx) (bp : String) (idx : Nat) (ele : Node) : String :=
  match ele.anchorName with
  | some a => bp ++ "&" ++ render_anchor_segment (sepChar ctx.pathsep) a ++ "]"
  | none => bp ++ toString idx ++ "]"

/-- The seen-anchor list after processing a sequence element: only original
anchor names are recorded (`yaml_paths.py` lines 186-188). -/
def seqSeen (seen : List String) (ele : Node) : List String :=
  match ele.anchorName with
  | some a => if seen.contains a then seen else seen ++ [a]
  | none => seen

mutual

/-- Embedding of `search_for_paths(data, terms, pathsep, build_path, **kwargs)`
(`yaml_paths.py` lines 150-266): recursively searches a tree for nodes
matching the search expression and yields the YAML Path of every match (the
`YAMLPath` wrapper around the built string is not modelled; results are the
built strings).  Each invocation starts with its own empty `seen_anchors`
list. -/
def search_for_paths (ctx : SearchCtx) (data : Node) (build_path : String) :
    List String :=
  match data with
  | .scalar _ _ => []
  | .seq _ elems =>
    let bp :=
      (if build_path = "" ∧ ctx.pathsep = Sep.fslash then strsep ctx.pathsep
       else build_path) ++ "["
    searchSeq ctx elems 0 [] bp
  | .map _ entries =>
    let bp :=
      if build_path ≠ "" then build_path ++ strsep ctx.pathsep
      else if ctx.pathsep = Sep.fslash then strsep ctx.pathsep
      else build_path
    searchMap ctx entries [] bp
termination_by sizeOf data
decreasing_by all_goals simp_wf

/-- The `for idx, ele in enumerate(data)` loop of the `CommentedSeq` branch
(`yaml_paths.py` lines 175-211), carrying the per-container `seen_anchors`
list. -/
def searchSeq (ctx : SearchCtx) (elems : List Node) (idx : Nat)
    (seen : List String) (bp : String) : List String :=
  match elems with
  | [] => []
  | ele :: rest =>
    if skipEle ctx seen ele then
      searchSeq ctx rest (idx + 1) seen bp
    else
      let tmp_path := seqElePath ctx bp idx ele
      (match ele with
       | .scalar _ v =>
         if ctx.search_values then
           if xorInvert (ctx.matchfn v) ctx.invert then [tmp_path] else []
         else []
       | e => search_for_paths ctx e tmp_path)
        ++ searchSeq ctx rest (idx + 1) (seqSeen seen ele) bp
termination_by sizeOf elems
decreasing_by all_goals simp_wf <;> omega

/-- The `for key, val in pool` loop of the `CommentedMap` branch
(`yaml_paths.py` lines 223-266), carrying the per-container `seen_anchors`
list. -/
def searchMap (ctx : SearchCtx) (entries : List (SKey × Node))
    (seen : List String) (bp : String) : List String :=
  match entries with
  | [] => []
  | (key, val) :: rest =>
    let tmp_path := bp ++ render_key_segment (sepChar ctx.pathsep) key.name
    let key_matched := ctx.search_keys && xorInvert (ctx.matchfn key.name) ctx.invert
    let keyResults := if key_matched then [tmp_path] else []
    match val with
    | .scalar va v =>
      if ctx.search_values && !key_matched then
        match va with
        | some anchor_name =>
          if seen.contains anchor_name && !ctx.include_aliases then
            keyResults ++ searchMap ctx rest seen bp
          else
            keyResults
              ++ (if xorInvert (ctx.matchfn v) ctx.invert then [tmp_path] else [])
              ++ searchMap ctx rest
                  (if seen.contains anchor_name then seen else seen ++ [anchor_name]) bp
        | none =>
          keyResults
            ++ (if xorInvert (ctx.matchfn v) ctx.invert then [tmp_path] else [])
            ++ searchMap ctx rest seen bp
      else keyResults ++ searchMap ctx rest seen bp
    | v => keyResults ++ search_for_paths ctx v tmp_path ++ searchMap ctx rest seen bp
termination_by sizeOf entries
decreasing_by all_goals simp_wf <;> omega

end

/-- A candidate node on which `search_matches` is invoked during a run:
a scalar sequence element, a mapping key, or a scalar mapping value, with
the path it would be yielded under and the scalar text handed to the
predicate. -/
inductive Candidate where
  | elem (path : String) (v : String)
  | key (path : String) (name : String)
  | val (path : String) (v : String)
deriving DecidableEq, Repr

/-- The path under which the candidate would be yielded. -/
def Candidate.path : Candidate → String
  | .elem p _ => p
  | .key p _ => p
  | .val p _ => p

/-- The scalar text handed to the predicate for this candidate. -/
def Candidate.payload : Candidate → String
  | .elem _ v => v
  | .key _ n => n
  | .val _ v => v

/-- The full match test applied to a candidate:
`search_matches(method, term, candidate)` XOR `invert`. -/
def candXor (ctx : SearchCtx) (c : Candidate) : Bool :=
  xorInvert (ctx.matchfn c.payload) ctx.invert

mutual

/-- Instrumented mirror of `search_for_paths`: yields every candidate on
which the run invokes `search_matches` (the tested candidates), in
invocation order.  The traversal, de-duplication and `key_matched` logic is
identical to `search_for_paths`. -/
def visitedNode (ctx : SearchCtx) (data : Node) (build_path : String) :
    List Candidate :=
  match data with
  | .scalar _ _ => []
  | .seq _ elems =>
    let bp :=
      (if build_path = "" ∧ ctx.pathsep = Sep.fslash then strsep ctx.pathsep
       else build_path) ++ "["
    visitedSeq ctx elems 0 [] bp
  | .map _ entries =>
    let bp :=
      if build_path ≠ "" then build_path ++ strsep ctx.pathsep
      else if ctx.pathsep = Sep.fslash then strsep ctx.pathsep
      else build_path
    visitedMap ctx entries [] bp
termination_by sizeOf data
decreasing_by all_goals simp_wf

/-- Instrumented mirror of `searchSeq`. -/
def visitedSeq (ctx : SearchCtx) (elems : List Node) (idx : Nat)
    (seen : List String) (bp : String) : List Candidate :=
  match elems with
  | [] => []
  | ele :: rest =>
    if skipEle ctx seen ele then
      visitedSeq ctx rest (idx + 1) seen bp
    else
      let tmp_path := seqElePath ctx bp idx ele
      (match ele with
       | .scalar _ v =>
         if ctx.search_values then [Candidate.elem tmp_path v] else []
       | e => visitedNode ctx e tmp_path)
        ++ visitedSeq ctx rest (idx + 1) (seqSeen seen ele) bp
termination_by sizeOf elems
decreasing_by all_goals simp_wf <;> omega

/-- Instrumented mirror of `searchMap`. -/
def visitedMap (ctx : SearchCtx) (entries : List (SKey × Node))
    (seen : List String) (bp : String) : List Candidate :=
  match entries with
  | [] => []
  | (key, val) :: rest =>
    let tmp_path := bp ++ render_key_segment (sepChar ctx.pathsep) key.name
    let key_matched := ctx.search_keys && xorInvert (ctx.matchfn key.name) ctx.invert
    let keyCands := if ctx.search_keys then [Candidate.key tmp_path key.name] else []
    match val with
    | .scalar va v =>
      if ctx.search_values && !key_matched then
        match va with
        | some anchor_name =>
          if seen.contains anchor_name && !ctx.include_aliases then
            keyCands ++ visitedMap ctx rest seen bp
          else
            keyCands ++ [Candidate.val tmp_path v]
              ++ visitedMap ctx rest
                  (if seen.contains anchor_name then seen else seen ++ [anchor_name]) bp
        | none =>
          keyCands ++ [Candidate.val tmp_path v] ++ visitedMap ctx rest seen bp
      else keyCands ++ visitedMap ctx rest seen bp
    | v => keyCands ++ visitedNode ctx v tmp_path ++ visitedMap ctx rest seen bp
termination_by sizeOf entries
decreasing_by all_goals simp_wf <;> omega

end


/-! ## Model of the merge command (`yaml_merge.py`)

The orchestration logic of `yaml_merge.py` (`validateargs`, `process_rhs`,
`process_multidoc` and the body of `main`) is embedded over an abstract
view of one run's inputs.  What the external collaborators
(`get_yaml_data`, `Merger.merge_with`) would do on each source is part of
that input: a source records whether its file exists, whether it parses,
whether the loader hands back a multi-document generator, and the outcome
of merging each of its documents. -/

/-- Python `str.strip()`: drop leading and trailing whitespace (used on
source names to recognize the `-` pseudo-file). -/
def pystrip (s : String) : String :=
  ⟨((s.data.dropWhile Char.isWhitespace).reverse.dropWhile
      Char.isWhitespace).reverse⟩

/-- The outcome of handing one right-hand document (or stream) to the Merge
Policy Engine: success, a `MergeException` (policy conflict), or a
`YAMLPathException` (path-resolution failure). -/
inductive MergeOutcome where
  | ok
  | mergeConflict
  | pathError
deriving DecidableEq, Repr

/-- One input source of a merge run, together with the behavior of the
external loader and merge engine on it: `name` is the command-line
argument, `isFile` is `os.path.isfile(name)`, `parses` is whether
`get_yaml_data` returns data rather than `None`, `multidoc` is whether the
loader hands back a multi-document generator, and `docs` are the documents
of the stream in order (`none` is an empty document, which the code skips;
`some o` is a document whose merge into the prime would produce outcome
`o`).  For a single-document source, `docs` is the one-element stream. -/
structure MergeSource where
  name : String
  isFile : Bool
  parses : Bool
  multidoc : Bool
  docs : List (Option MergeOutcome)
deriving DecidableEq, Repr

/-- Modelled from the spec: `Merger.merge_with` is not under `src/`.  Per
the spec each sub-document of a right-hand stream "merges in order" and the
engine "fails with MergeConflict when policy forbids reconciliation", so
merging a stream raises the first failing document's exception; empty
documents contribute nothing. -/
def merge_with : List (Option MergeOutcome) → MergeOutcome
  | [] => .ok
  | none :: rest => merge_with rest
  | some .ok :: rest => merge_with rest
  | some o :: _ => o

/-- Embedding of `validateargs(args, log)` (`yaml_merge.py` lines 157-205), returning
`has_errors`: there must be at least two input files (a single non-`-`
file is allowed only when STDIN is implied: a non-TTY session without
`--nostdin`); at most one `-` pseudo-file; a configured rule file must be
readable; a configured output file must not already exist.  `config` and
`output` are `none` when the option is unset, otherwise `some readable` /
`some exists`. -/
def validateargs (rhs_files : List MergeSource) (stdin_isatty nostdin : Bool)
    (config : Option Bool) (output : Option Bool) : Bool :=
  let input_file_count := rhs_files.length
  let head_is_dash :=
    match rhs_files with
    | s :: _ => pystrip s.name == "-"
    | [] => false
  let pseudofile_count := (rhs_files.filter (fun s => pystrip s.name == "-")).length
  (input_file_count == 0
      || (input_file_count == 1 && (stdin_isatty || head_is_dash || nostdin)))
    || pseudofile_count > 1
    || (match config with
        | some readable => !readable
        | none => false)
    || (match output with
        | some already_exists => already_exists
        | none => false)

/-- Embedding of `process_rhs(merger, rhs_yaml, rhs_file)` (`yaml_merge.py` lines
209-236): a named source that is not a file is exit state 2; a source that
fails to load is 3; merging maps `MergeException` to 4 and
`YAMLPathException` to 5; success is 0. -/
def process_rhs (s : MergeSource) : Nat :=
  if s.name != "-" && !s.isFile then 2
  else if !s.parses then 3
  else
    match merge_with s.docs with
    | .ok => 0
    | .mergeConflict => 4
    | .pathError => 5

/-- Embedding of `process_multidoc(merger, docs)` (`yaml_merge.py` lines 238-263): every
document of the stream is offered to the merge engine (the loop has no
break), `None` documents are skipped, a `MergeException` sets the exit
state to 6 and a `YAMLPathException` to 7 (a later failure overwrites an
earlier one), and a success leaves the exit state unchanged.  The second
component is the trace of documents actually handed to
`merger.merge_with`, in order. -/
def process_multidoc (exit_state : Nat) (tr : List MergeOutcome) :
    List (Option MergeOutcome) → Nat × List MergeOutcome
  | [] => (exit_state, tr)
  | none :: rest => process_multidoc exit_state tr rest
  | some o :: rest =>
    process_multidoc
      (match o with
       | .ok => exit_state
       | .mergeConflict => 6
       | .pathError => 7)
      (tr ++ [o]) rest

/-- The `for rhs_file in fileiterator` loop of `main` (`yaml_merge.py`
lines 309-319): sources are processed strictly left to right; processing a
`-` (after stripping) source marks STDIN as consumed even when it fails;
the loop breaks on the first nonzero `process_rhs` state.  Returns the exit
state, whether STDIN was consumed by the loop, and the trace of sources
actually handed to `process_rhs`, in order. -/
def runRhs : List MergeSource → Nat × Bool × List MergeSource
  | [] => (0, false, [])
  | s :: rest =>
    let proc_state := process_rhs s
    let consumed_here := pystrip s.name == "-"
    if proc_state ≠ 0 then (proc_state, consumed_here, [s])
    else
      let r := runRhs rest
      (r.1, consumed_here || r.2.1, s :: r.2.2)

/-- The observable outcome of one whole `yaml-merge` run: the process exit
state, whether the merged document was serialized to the configured sink
(`prime_yaml.dump`), the names of the sources actually opened via
`get_yaml_data` (in order, `-` for STDIN), and the trace of extra documents
of a multi-document first source handed to the merge engine by
`process_multidoc`. -/
structure RunResult where
  exit_state : Nat
  emitted : Bool
  opened : List String
  merged_extra : List MergeOutcome
deriving DecidableEq, Repr

/-- The body of `main` after `validateargs` (`yaml_merge.py` lines
265-338): load the prime (first) source; a prime that fails to load, or a
multi-document prime whose stream has no first document, is fatal with exit
state 1 (`log.critical(..., 1)`); the remaining documents of a
multi-document prime are merged by `process_multidoc` and a nonzero state
exits at once; then the remaining sources are merged left to right with a
break on first failure; then a pending STDIN document is drained when no
source consumed STDIN, `--nostdin` is unset and the session is not a TTY;
finally the document is dumped only when the exit state is 0. -/
def main_merge (rhs_files : List MergeSource) (stdin_isatty nostdin : Bool)
    (stdin_parses : Bool) (stdin_docs : List (Option MergeOutcome)) : RunResult :=
  match rhs_files with
  | [] => ⟨1, false, [], []⟩
  | prime :: rest =>
    let consumed_stdin := pystrip prime.name == "-"
    if !prime.parses then ⟨1, false, [prime.name], []⟩
    else
      let lhs_ok :=
        if prime.multidoc then
          match prime.docs with
          | some _ :: _ => true
          | _ => false
        else true
      if !lhs_ok then ⟨1, false, [prime.name], []⟩
      else
        let extras := if prime.multidoc then prime.docs.tail else []
        let pm := process_multidoc 0 [] extras
        if pm.1 ≠ 0 then ⟨pm.1, false, [prime.name], pm.2⟩
        else
          let r := runRhs rest
          let consumed := consumed_stdin || r.2.1
          let opened := prime.name :: (r.2.2).map MergeSource.name
          if (r.1 == 0) && !consumed && !nostdin && !stdin_isatty then
            let drained : MergeSource := ⟨"-", false, stdin_parses, true, stdin_docs⟩
            let e := process_rhs drained
            ⟨e, e == 0, opened ++ ["-"], pm.2⟩
          else
            ⟨r.1, r.1 == 0, opened, pm.2⟩

/-- Embedding of `main()` of `yaml_merge.py`: `validateargs` runs before any source is
opened and exits with state 1 on error; otherwise the merge pipeline runs. -/
def yaml_merge_run (rhs_files : List MergeSource) (stdin_isatty nostdin : Bool)
    (config : Option Bool) (output : Option Bool)
    (stdin_parses : Bool) (stdin_docs : List (Option MergeOutcome)) : RunResult :=
  if validateargs rhs_files stdin_isatty nostdin config output then
    ⟨1, false, [], []⟩
  else
    main_merge rhs_files stdin_isatty nostdin stdin_parses stdin_docs


/-- The claim's way of counting supplied sources: the listed sources plus
one implied STDIN source when the session is not a TTY, `--nostdin` is
unset, and no listed source already is the `-` pseudo-file.  (Stated from
the claim's words, for comparison with `validateargs`.) -/
def sourcesCountingImpliedStdin (rhs_files : List MergeSource)
    (stdin_isatty nostdin : Bool) : Nat :=
  rhs_files.length +
    (if !stdin_isatty && !nostdin
        && ((rhs_files.filter (fun s => pystrip s.name == "-")).length == 0)
     then 1 else 0)

/-! ## Helper lemmas about the merge pipeline -/

/-- The function `process_multidoc` offers every non-empty document of the stream to the
merge engine, failures notwithstanding. -/
theorem process_multidoc_trace (st : Nat) (tr : List MergeOutcome)
    (docs : List (Option MergeOutcome)) :
    (process_multidoc st tr docs).2 = tr ++ docs.filterMap id := by
  induction docs generalizing st tr with
  | nil => simp [process_multidoc]
  | cons d rest ih =>
    cases d with
    | none => simp [process_multidoc, ih]
    | some o => simp [process_multidoc, ih]

/-- The RHS loop of `main` stops at the first failing source: sources
before it all succeed, the failing source's state is returned, and nothing
after it is processed. -/
theorem runRhs_first_failure (pre : List MergeSource) (s : MergeSource)
    (post : List MergeSource) (hpre : ∀ x ∈ pre, process_rhs x = 0)
    (hs : process_rhs s ≠ 0) :
    (runRhs (pre ++ s :: post)).1 = process_rhs s ∧
      (runRhs (pre ++ s :: post)).2.2 = pre ++ [s] := by
  induction pre with
  | nil => simp [runRhs, hs]
  | cons a pre ih =>
    have ha : process_rhs a = 0 := hpre a (by simp)
    have hr := ih (fun x hx => hpre x (by simp [hx]))
    simp [runRhs, ha, hr.1, hr.2]

/-- The RHS loop processes every source when all of them succeed. -/
theorem runRhs_all_ok (l : List MergeSource) (h : ∀ x ∈ l, process_rhs x = 0) :
    (runRhs l).1 = 0 ∧ (runRhs l).2.2 = l := by
  induction l with
  | nil => simp [runRhs]
  | cons a rest ih =>
    have ha : process_rhs a = 0 := h a (by simp)
    have hr := ih (fun x hx => h x (by simp [hx]))
    simp [runRhs, ha, hr.1, hr.2]

/-- A failing validation exits with state 1, emits nothing and opens no
source. -/
theorem yaml_merge_run_validate_fail (files : List MergeSource)
    (atty ns : Bool) (cfg out : Option Bool) (sp : Bool)
    (sd : List (Option MergeOutcome))
    (h : validateargs files atty ns cfg out = true) :
    yaml_merge_run files atty ns cfg out sp sd = ⟨1, false, [], []⟩ := by
  simp [yaml_merge_run, h]

/-- When an extra document of a multi-document prime source fails,
`main` exits at once with `process_multidoc`'s state: no further source is
opened and nothing is emitted. -/
theorem main_merge_prime_extra_fail (prime : MergeSource)
    (rest : List MergeSource) (atty ns sp : Bool)
    (sd ds : List (Option MergeOutcome)) (d : MergeOutcome)
    (hp : prime.parses = true) (hm : prime.multidoc = true)
    (hd : prime.docs = some d :: ds)
    (hfail : (process_multidoc 0 [] ds).1 ≠ 0) :
    main_merge (prime :: rest) atty ns sp sd =
      ⟨(process_multidoc 0 [] ds).1, false, [prime.name],
        (process_multidoc 0 [] ds).2⟩ := by
  simp [main_merge, hp, hm, hd, hfail]

/-- When a named right-hand source fails, `main` exits with that source's
state, nothing is emitted, and only the sources up to and including the
failing one were opened. -/
theorem main_merge_rhs_fail (prime : MergeSource) (rest : List MergeSource)
    (atty ns sp : Bool) (sd : List (Option MergeOutcome))
    (hp : prime.parses = true) (hm : prime.multidoc = false)
    (hr : (runRhs rest).1 ≠ 0) :
    main_merge (prime :: rest) atty ns sp sd =
      ⟨(runRhs rest).1, false,
        prime.name :: ((runRhs rest).2.2).map MergeSource.name, []⟩ := by
  have h0 : ((runRhs rest).1 == 0) = false := by
    simp [hr]
  simp [main_merge, hp, hm, process_multidoc, h0]

/-- A fully successful run (TTY session, so no STDIN drain) exits 0 and
emits the merged document. -/
theorem main_merge_all_ok (prime : MergeSource) (rest : List MergeSource)
    (ns sp : Bool) (sd : List (Option MergeOutcome))
    (hp : prime.parses = true) (hm : prime.multidoc = false)
    (hr : (runRhs rest).1 = 0) :
    main_merge (prime :: rest) true ns sp sd =
      ⟨0, true, prime.name :: ((runRhs rest).2.2).map MergeSource.name, []⟩ := by
  simp [main_merge, hp, hm, process_multidoc, hr]


/-- C7: for every merge run that ends with a nonzero exit state nothing is
written to the configured output sink; the merged document is serialized
exactly when the exit state is 0. -/
theorem C7_serialize_only_on_zero_exit (files : List MergeSource)
    (atty ns : Bool) (cfg out : Option Bool) (sp : Bool)
    (sd : List (Option MergeOutcome)) :
    (yaml_merge_run files atty ns cfg out sp sd).emitted
      = ((yaml_merge_run files atty ns cfg out sp sd).exit_state == 0) := by
  unfold yaml_merge_run main_merge
  rcases files with _ | ⟨prime, rest⟩ <;> (repeat' split) <;>
    (try simp_all) <;> (repeat' split) <;> simp_all

/-- C9: an `--output` target that already exists fails validation with exit
state 1, before any source is opened, and nothing is ever written. -/
theorem C9_no_overwrite (files : List MergeSource) (atty ns : Bool)
    (cfg : Option Bool) (sp : Bool) (sd : List (Option MergeOutcome)) :
    yaml_merge_run files atty ns cfg (some true) sp sd = ⟨1, false, [], []⟩ := by
  apply yaml_merge_run_validate_fail
  simp [validateargs]

/-- C6: when fewer than two sources are supplied (counting an implied STDIN
source) or more than one listed source is the `-` pseudo-file, the run
exits with state 1 without opening any source. -/
theorem C6_validation_preconditions (files : List MergeSource)
    (atty ns : Bool) (cfg out : Option Bool) (sp : Bool)
    (sd : List (Option MergeOutcome))
    (h : sourcesCountingImpliedStdin files atty ns < 2
        ∨ 1 < (files.filter (fun s => pystrip s.name == "-")).length) :
    yaml_merge_run files atty ns cfg out sp sd = ⟨1, false, [], []⟩ := by
  apply yaml_merge_run_validate_fail
  rcases files with _ | ⟨s, rest⟩
  · simp [validateargs]
  · rcases rest with _ | ⟨b, rest⟩
    · rcases h with h | h
      · simp only [sourcesCountingImpliedStdin, List.length_cons,
          List.length_nil] at h
        by_cases hd : pystrip s.name = "-"
        · simp [validateargs, hd]
        · have hd' : (pystrip s.name == "-") = false := by simp [hd]
          have hfilter : (List.filter (fun s => pystrip s.name == "-") [s]).length = 0 := by
            simp [List.filter_cons, hd']
          rw [hfilter] at h
          simp only [beq_self_eq_true, Bool.and_true] at h
          rcases hatty : atty with _ | _
          · rcases hns : ns with _ | _
            · simp [hatty, hns] at h
            · simp [validateargs, hns]
          · simp [validateargs, hatty]
      · exfalso
        have : (List.filter (fun s => pystrip s.name == "-") [s]).length ≤ 1 := by
          have := List.length_filter_le (fun s => pystrip s.name == "-") [s]
          simpa using this
        omega
    · -- at least two listed sources: the implied-count part cannot be < 2
      rcases h with h | h
      · exfalso
        simp only [sourcesCountingImpliedStdin, List.length_cons] at h
        omega
      · have : ((s :: b :: rest).filter (fun s => pystrip s.name == "-")).length > 1 := h
        simp only [validateargs]
        simp [this]


/-- The function `process_multidoc` maps a trailing failing document to state 6
(`MergeException`). -/
theorem process_multidoc_last_conflict (docs : List (Option MergeOutcome)) :
    ∀ st tr, (process_multidoc st tr (docs ++ [some .mergeConflict])).1 = 6 := by
  induction docs with
  | nil => intro st tr; simp [process_multidoc]
  | cons d rest ih =>
    intro st tr
    cases d with
    | none => simpa [process_multidoc] using ih st tr
    | some o => cases o <;> simp [process_multidoc] <;> exact ih _ _

/-- The function `process_multidoc` maps a trailing failing document to state 7
(`YAMLPathException`). -/
theorem process_multidoc_last_patherr (docs : List (Option MergeOutcome)) :
    ∀ st tr, (process_multidoc st tr (docs ++ [some .pathError])).1 = 7 := by
  induction docs with
  | nil => intro st tr; simp [process_multidoc]
  | cons d rest ih =>
    intro st tr
    cases d with
    | none => simpa [process_multidoc] using ih st tr
    | some o => cases o <;> simp [process_multidoc] <;> exact ih _ _

/-- A named source that is not a file gives state 2. -/
theorem process_rhs_missing (s : MergeSource) (h1 : s.name ≠ "-")
    (h2 : s.isFile = false) : process_rhs s = 2 := by
  simp [process_rhs, h1, h2]

/-- A source (or STDIN) that fails to load gives state 3. -/
theorem process_rhs_no_parse (s : MergeSource)
    (h0 : s.name = "-" ∨ s.isFile = true) (h : s.parses = false) :
    process_rhs s = 3 := by
  rcases h0 with h0 | h0 <;> simp [process_rhs, h0, h]

/-- A loadable source whose merge raises `MergeException` gives state 4,
however many documents its stream holds. -/
theorem process_rhs_conflict (s : MergeSource)
    (h0 : s.name = "-" ∨ s.isFile = true) (h : s.parses = true)
    (hm : merge_with s.docs = .mergeConflict) : process_rhs s = 4 := by
  rcases h0 with h0 | h0 <;> simp [process_rhs, h0, h, hm]

/-- A loadable source whose merge raises `YAMLPathException` gives state 5. -/
theorem process_rhs_patherr (s : MergeSource)
    (h0 : s.name = "-" ∨ s.isFile = true) (h : s.parses = true)
    (hm : merge_with s.docs = .pathError) : process_rhs s = 5 := by
  rcases h0 with h0 | h0 <;> simp [process_rhs, h0, h, hm]

/-- A loadable source that merges cleanly gives state 0. -/
theorem process_rhs_ok (s : MergeSource)
    (h0 : s.name = "-" ∨ s.isFile = true) (h : s.parses = true)
    (hm : merge_with s.docs = .ok) : process_rhs s = 0 := by
  rcases h0 with h0 | h0 <;> simp [process_rhs, h0, h, hm]

/-- C4 counterexample to the claim as stated: in this run the
multi-document first source's extra documents are `[mergeConflict, ok]`;
the conflict on the first extra document does not stop the stream — the
`ok` document is still handed to the merge engine afterwards (it appears
after the conflict in `merged_extra`), so further documents are merged
after the first failure. -/
theorem C4_counterexample :
    yaml_merge_run
      [⟨"p.yaml", true, true, true, [some .ok, some .mergeConflict, some .ok]⟩,
       ⟨"r.yaml", true, true, false, [some .ok]⟩]
      true true none none true []
      = ⟨6, false, ["p.yaml"], [.mergeConflict, .ok]⟩ := by decide

/-- C4 (amended): aborting happens at source granularity.  Within one
multi-document stream every remaining document is still offered to the
merge engine after a failure; but the source loop stops at the first
failing source (sources after it are never processed), a failing
multi-document first source exits before any further source is opened, and
a failing right-hand source ends the run with nothing emitted. -/
theorem C4_source_level_abort :
    (∀ (st : Nat) (tr : List MergeOutcome) (docs : List (Option MergeOutcome)),
        (process_multidoc st tr docs).2 = tr ++ docs.filterMap id)
    ∧ (∀ (pre : List MergeSource) (s : MergeSource) (post : List MergeSource),
        (∀ x ∈ pre, process_rhs x = 0) → process_rhs s ≠ 0 →
        (runRhs (pre ++ s :: post)).1 = process_rhs s ∧
          (runRhs (pre ++ s :: post)).2.2 = pre ++ [s])
    ∧ (∀ (prime : MergeSource) (rest : List MergeSource) (atty ns sp : Bool)
        (sd ds : List (Option MergeOutcome)) (d : MergeOutcome),
        prime.parses = true → prime.multidoc = true →
        prime.docs = some d :: ds → (process_multidoc 0 [] ds).1 ≠ 0 →
        main_merge (prime :: rest) atty ns sp sd =
          ⟨(process_multidoc 0 [] ds).1, false, [prime.name],
            (process_multidoc 0 [] ds).2⟩)
    ∧ (∀ (prime : MergeSource) (rest : List MergeSource) (atty ns sp : Bool)
        (sd : List (Option MergeOutcome)),
        prime.parses = true → prime.multidoc = false → (runRhs rest).1 ≠ 0 →
        main_merge (prime :: rest) atty ns sp sd =
          ⟨(runRhs rest).1, false,
            prime.name :: ((runRhs rest).2.2).map MergeSource.name, []⟩) :=
  ⟨process_multidoc_trace, runRhs_first_failure,
    main_merge_prime_extra_fail, main_merge_rhs_fail⟩

/-- Witness for the amended C4: in a concrete two-source run whose first
right-hand source is missing, the loop returns that source's state 2 and
the second source is never processed. -/
theorem C4_witness :
    (runRhs [⟨"missing.yaml", false, true, false, [some .ok]⟩,
             ⟨"good.yaml", true, true, false, [some .ok]⟩]).1 = 2 ∧
      (runRhs [⟨"missing.yaml", false, true, false, [some .ok]⟩,
               ⟨"good.yaml", true, true, false, [some .ok]⟩]).2.2
        = [⟨"missing.yaml", false, true, false, [some .ok]⟩] := by
  have h := C4_source_level_abort.2.1 []
      ⟨"missing.yaml", false, true, false, [some .ok]⟩
      [⟨"good.yaml", true, true, false, [some .ok]⟩]
      (by intro x hx; simp at hx) (by decide)
  simp only [List.nil_append] at h
  exact ⟨by rw [h.1]; decide, h.2⟩

/-- C5 counterexample to the claim as stated: a multi-document right-hand
source whose second document raises a merge conflict makes the run exit
with state 4 (the claim assigns 6 to merge conflicts from multi-document
sources; 6 is in fact produced only for the extra documents of a
multi-document first source). -/
theorem C5_counterexample :
    yaml_merge_run
      [⟨"p.yaml", true, true, false, [some .ok]⟩,
       ⟨"r.yaml", true, true, true, [some .ok, some .mergeConflict]⟩]
      true true none none true []
      = ⟨4, false, ["p.yaml", "r.yaml"], []⟩ := by decide

/-- C5 (amended): the exit-state mapping of the merge command.  0 success;
1 validation failure; 2 a named right-hand source is not a file; 3 a
right-hand source fails to load; 4 a `MergeException` and 5 a
`YAMLPathException` while merging any named (or STDIN) right-hand source,
whatever its document count; 6 a `MergeException` and 7 a
`YAMLPathException` while merging the extra documents of a multi-document
first source, with a nonzero state propagated to the process exit. -/
theorem C5_exit_states :
    (∀ (files : List MergeSource) (atty ns : Bool) (cfg out : Option Bool)
        (sp : Bool) (sd : List (Option MergeOutcome)),
        validateargs files atty ns cfg out = true →
        yaml_merge_run files atty ns cfg out sp sd = ⟨1, false, [], []⟩)
    ∧ (∀ s : MergeSource, s.name ≠ "-" → s.isFile = false → process_rhs s = 2)
    ∧ (∀ s : MergeSource, s.name = "-" ∨ s.isFile = true → s.parses = false →
        process_rhs s = 3)
    ∧ (∀ s : MergeSource, s.name = "-" ∨ s.isFile = true → s.parses = true →
        merge_with s.docs = .mergeConflict → process_rhs s = 4)
    ∧ (∀ s : MergeSource, s.name = "-" ∨ s.isFile = true → s.parses = true →
        merge_with s.docs = .pathError → process_rhs s = 5)
    ∧ (∀ s : MergeSource, s.name = "-" ∨ s.isFile = true → s.parses = true →
        merge_with s.docs = .ok → process_rhs s = 0)
    ∧ (∀ (docs : List (Option MergeOutcome)) (st : Nat) (tr : List MergeOutcome),
        (process_multidoc st tr (docs ++ [some .mergeConflict])).1 = 6
        ∧ (process_multidoc st tr (docs ++ [some .pathError])).1 = 7)
    ∧ (∀ (prime : MergeSource) (rest : List MergeSource) (atty ns sp : Bool)
        (sd ds : List (Option MergeOutcome)) (d : MergeOutcome),
        prime.parses = true → prime.multidoc = true →
        prime.docs = some d :: ds → (process_multidoc 0 [] ds).1 ≠ 0 →
        main_merge (prime :: rest) atty ns sp sd =
          ⟨(process_multidoc 0 [] ds).1, false, [prime.name],
            (process_multidoc 0 [] ds).2⟩)
    ∧ (∀ (prime : MergeSource) (rest : List MergeSource) (atty ns sp : Bool)
        (sd : List (Option MergeOutcome)),
        prime.parses = true → prime.multidoc = false → (runRhs rest).1 ≠ 0 →
        main_merge (prime :: rest) atty ns sp sd =
          ⟨(runRhs rest).1, false,
            prime.name :: ((runRhs rest).2.2).map MergeSource.name, []⟩) :=
  ⟨yaml_merge_run_validate_fail, process_rhs_missing, process_rhs_no_parse,
    process_rhs_conflict, process_rhs_patherr, process_rhs_ok,
    fun docs st tr =>
      ⟨process_multidoc_last_conflict docs st tr,
        process_multidoc_last_patherr docs st tr⟩,
    main_merge_prime_extra_fail, main_merge_rhs_fail⟩

/-- Witness for the amended C5: concrete sources hitting states 2, 3, 4
and 5. -/
theorem C5_witness :
    process_rhs ⟨"gone.yaml", false, true, false, [some .ok]⟩ = 2 ∧
      process_rhs ⟨"bad.yaml", true, false, false, []⟩ = 3 ∧
      process_rhs ⟨"r.yaml", true, true, true, [some .ok, some .mergeConflict]⟩ = 4 ∧
      process_rhs ⟨"q.yaml", true, true, false, [some .pathError]⟩ = 5 :=
  ⟨C5_exit_states.2.1 _ (by decide) rfl,
    C5_exit_states.2.2.1 _ (Or.inr rfl) rfl,
    C5_exit_states.2.2.2.1 _ (Or.inr rfl) rfl (by decide),
    C5_exit_states.2.2.2.2.1 _ (Or.inr rfl) rfl (by decide)⟩

/-- Witness for C6: supplying the `-` pseudo-file twice exits 1 with no
source opened. -/
theorem C6_witness :
    yaml_merge_run
      [⟨"-", false, true, false, [some .ok]⟩, ⟨"-", false, true, true, [some .ok]⟩]
      false false none none true []
      = ⟨1, false, [], []⟩ :=
  C6_validation_preconditions _ _ _ _ _ _ _ (Or.inr (by decide))


/-- C8: with `searchKeys` enabled, a mapping entry whose key satisfies
(matches XOR invert) yields the key's locator and the entry's scalar value
is not additionally tested (exactly one result for the logical pair, the
seen-anchor list untouched and the value's anchor unrecorded), while a
container value of a key-matched entry is still recursed into. -/
theorem C8_key_match_suppresses_value
    (f : String → Bool) (i sv ia : Bool) (sep : Sep) (key : SKey)
    (rest : List (SKey × Node)) (seen : List String) (bp : String)
    (hx : xorInvert (f key.name) i = true) :
    (∀ a w,
      searchMap ⟨f, i, sv, true, ia, sep⟩ ((key, .scalar a w) :: rest) seen bp
        = (bp ++ render_key_segment (sepChar sep) key.name)
            :: searchMap ⟨f, i, sv, true, ia, sep⟩ rest seen bp
      ∧ visitedMap ⟨f, i, sv, true, ia, sep⟩ ((key, .scalar a w) :: rest) seen bp
        = Candidate.key (bp ++ render_key_segment (sepChar sep) key.name) key.name
            :: visitedMap ⟨f, i, sv, true, ia, sep⟩ rest seen bp)
    ∧ (∀ a elems,
      searchMap ⟨f, i, sv, true, ia, sep⟩ ((key, .seq a elems) :: rest) seen bp
        = (bp ++ render_key_segment (sepChar sep) key.name)
            :: (search_for_paths ⟨f, i, sv, true, ia, sep⟩ (.seq a elems)
                  (bp ++ render_key_segment (sepChar sep) key.name)
                ++ searchMap ⟨f, i, sv, true, ia, sep⟩ rest seen bp))
    ∧ (∀ a entries,
      searchMap ⟨f, i, sv, true, ia, sep⟩ ((key, .map a entries) :: rest) seen bp
        = (bp ++ render_key_segment (sepChar sep) key.name)
            :: (search_for_paths ⟨f, i, sv, true, ia, sep⟩ (.map a entries)
                  (bp ++ render_key_segment (sepChar sep) key.name)
                ++ searchMap ⟨f, i, sv, true, ia, sep⟩ rest seen bp)) := by
  refine ⟨fun a w => ⟨?_, ?_⟩, fun a elems => ?_, fun a entries => ?_⟩
  · rw [searchMap.eq_def]
    simp [hx]
  · rw [visitedMap.eq_def]
    simp [hx]
  · rw [searchMap.eq_def]
    simp [hx]
  · rw [searchMap.eq_def]
    simp [hx]

/-- Witness for C8: a key equal to the search term is yielded once and its
scalar value (which would also match) is not tested. -/
theorem C8_witness :
    searchMap ⟨fun s => s == "a", false, true, true, false, Sep.dot⟩
        [(⟨none, "a"⟩, Node.scalar none "a")] [] ""
      = ["a"] := by
  have h := (C8_key_match_suppresses_value (fun s => s == "a") false true false
      Sep.dot ⟨none, "a"⟩ [] [] "" (by decide)).1 none "a"
  rw [h.1, searchMap.eq_def]
  decide

/-- C10: anchors on mapping keys never participate in de-duplication: an
anchored key behaves exactly like the same key without its anchor, key
anchors are never recorded in the seen-anchor list, and a container value's
anchor is not recorded either (an anchored key is still tested even when
its anchor name is already in the seen list) - only scalar values take part
in de-duplication inside a mapping. -/
theorem C10_key_anchor_never_deduped
    (f : String → Bool) (i sv sk ia : Bool) (sep : Sep) (a nm : String)
    (v : Node) (rest : List (SKey × Node)) (seen : List String) (bp : String) :
    (searchMap ⟨f, i, sv, sk, ia, sep⟩ ((⟨some a, nm⟩, v) :: rest) seen bp
      = searchMap ⟨f, i, sv, sk, ia, sep⟩ ((⟨none, nm⟩, v) :: rest) seen bp)
    ∧ (visitedMap ⟨f, i, sv, sk, ia, sep⟩ ((⟨some a, nm⟩, v) :: rest) seen bp
      = visitedMap ⟨f, i, sv, sk, ia, sep⟩ ((⟨none, nm⟩, v) :: rest) seen bp)
    ∧ (∀ elems,
      visitedMap ⟨f, i, true, true, ia, sep⟩
          ((⟨some a, nm⟩, .seq (some a) elems) :: rest) (seen ++ [a]) bp
        = Candidate.key (bp ++ render_key_segment (sepChar sep) nm) nm
            :: (visitedNode ⟨f, i, true, true, ia, sep⟩ (.seq (some a) elems)
                  (bp ++ render_key_segment (sepChar sep) nm)
              ++ visitedMap ⟨f, i, true, true, ia, sep⟩ rest (seen ++ [a]) bp)) := by
  refine ⟨?_, ?_, fun elems => ?_⟩
  · cases v <;>
      ((conv_lhs => rw [searchMap.eq_def]); (conv_rhs => rw [searchMap.eq_def]))
  · cases v <;>
      ((conv_lhs => rw [visitedMap.eq_def]); (conv_rhs => rw [visitedMap.eq_def]))
  · rw [visitedMap.eq_def]
    simp


/-- C2: alias de-duplication is scoped per container.  In one sequence a
second direct child bearing an already-seen anchor contributes nothing
(unless `includeAliasDuplicates` is set, in which case it is evaluated
again); a container child is searched with its own fresh seen-anchor list,
so the same anchor under two sibling containers is evaluated independently
in each; and the same holds for scalar values inside one mapping. -/
theorem C2_per_container_dedup
    (f : String → Bool) (i sk : Bool) (sep : Sep) (a v : String)
    (bp : String) (k1 k2 : SKey) :
    (search_for_paths ⟨f, i, true, sk, false, sep⟩
        (.seq none [.scalar (some a) v, .scalar (some a) v]) bp
      = search_for_paths ⟨f, i, true, sk, false, sep⟩
          (.seq none [.scalar (some a) v]) bp)
    ∧ (search_for_paths ⟨f, i, true, sk, true, sep⟩
        (.seq none [.scalar (some a) v, .scalar (some a) v]) bp
      = search_for_paths ⟨f, i, true, sk, true, sep⟩
          (.seq none [.scalar (some a) v]) bp
        ++ search_for_paths ⟨f, i, true, sk, true, sep⟩
            (.seq none [.scalar (some a) v]) bp)
    ∧ (∀ p, search_for_paths ⟨f, i, true, sk, false, sep⟩
          (.seq none [.scalar (some a) v]) p
        = if xorInvert (f v) i = true then
            [((if p = "" ∧ sep = Sep.fslash then strsep sep else p) ++ "[")
              ++ "&" ++ render_anchor_segment (sepChar sep) a ++ "]"]
          else [])
    ∧ (search_for_paths ⟨f, i, true, sk, false, sep⟩
        (.seq none [.seq none [.scalar (some a) v],
                    .seq none [.scalar (some a) v]]) bp
      = search_for_paths ⟨f, i, true, sk, false, sep⟩
          (.seq none [.scalar (some a) v])
          (((if bp = "" ∧ sep = Sep.fslash then strsep sep else bp) ++ "[")
            ++ toString (0 : Nat) ++ "]")
        ++ search_for_paths ⟨f, i, true, sk, false, sep⟩
            (.seq none [.scalar (some a) v])
            (((if bp = "" ∧ sep = Sep.fslash then strsep sep else bp) ++ "[")
              ++ toString (1 : Nat) ++ "]"))
    ∧ (search_for_paths ⟨f, i, true, false, false, sep⟩
        (.map none [(k1, .scalar (some a) v), (k2, .scalar (some a) v)]) bp
      = search_for_paths ⟨f, i, true, false, false, sep⟩
          (.map none [(k1, .scalar (some a) v)]) bp)
    ∧ (search_for_paths ⟨f, i, true, false, true, sep⟩
        (.map none [(k1, .scalar (some a) v), (k2, .scalar (some a) v)]) bp
      = search_for_paths ⟨f, i, true, false, true, sep⟩
          (.map none [(k1, .scalar (some a) v)]) bp
        ++ search_for_paths ⟨f, i, true, false, true, sep⟩
            (.map none [(k2, .scalar (some a) v)]) bp) := by
  refine ⟨?_, ?_, fun p => ?_, ?_, ?_, ?_⟩ <;>
    simp [search_for_paths.eq_def, searchSeq.eq_def, searchMap.eq_def,
      skipEle, seqElePath, seqSeen, Node.anchorName]


/-- Escaping a symbol other than the backslash in a backslash-escaped list
leaves every occurrence of the symbol escaped. -/
theorem allEscaped_escape_double (sym : Char) (hsym : sym ≠ '\\') :
    ∀ s : List Char, allEscaped sym (escapeChar sym (escapeChar '\\' s)) = true := by
  intro s
  induction s with
  | nil => rfl
  | cons c t ih =>
    by_cases hb : c = '\\'
    · subst hb
      simp [escapeChar, hsym, Ne.symm hsym, allEscaped, ih]
    · by_cases hs : c = sym
      · subst hs
        simp [escapeChar, hb, allEscaped, ih]
      · have h1 : escapeChar '\\' (c :: t) = c :: escapeChar '\\' t := by
          simp [escapeChar, hb]
        have h2 : escapeChar sym (c :: escapeChar '\\' t)
            = c :: escapeChar sym (escapeChar '\\' t) := by
          simp [escapeChar, hs]
        rw [h1, h2, allEscaped.eq_def]
        simp [hb, hs, ih]

/-- Escaping a symbol other than the backslash in a backslash-free list
leaves every occurrence of the symbol escaped. -/
theorem allEscaped_escape_nobackslash (sym : Char) (hsym : sym ≠ '\\') :
    ∀ s : List Char, '\\' ∉ s → allEscaped sym (escapeChar sym s) = true := by
  intro s
  induction s with
  | nil => intro _; rfl
  | cons c t ih =>
    intro hmem
    have hb : c ≠ '\\' := by
      intro hc
      exact hmem (by simp [hc])
    have ht : '\\' ∉ t := by
      intro hc
      exact hmem (by simp [hc])
    by_cases hs : c = sym
    · subst hs
      simp [escapeChar, allEscaped, ih ht]
    · have h2 : escapeChar sym (c :: t) = c :: escapeChar sym t := by
        simp [escapeChar, hs]
      rw [h2, allEscaped.eq_def]
      simp [hb, hs, ih ht]

/-- C3 counterexample to the claim as stated: the key `a[b` is emitted as
the locator `a[b` with its `[` unescaped, and the anchor name `x&y` is
rendered `x&y` with its `&` unescaped: the structural tokens `[`, `]`, `&`
are not escaped in emitted segments. -/
theorem C3_counterexample :
    search_for_paths ⟨fun _ => true, false, true, false, false, Sep.dot⟩
        (.map none [(⟨none, "a[b"⟩, .scalar none "v")]) "" = ["a[b"]
    ∧ allEscaped '[' ("a[b" : String).data = false
    ∧ '[' ∈ ("a[b" : String).data
    ∧ render_anchor_segment '.' "x&y" = "x&y"
    ∧ allEscaped '&' ("x&y" : String).data = false := by
  refine ⟨?_, by decide, by decide, by decide, by decide⟩
  simp [search_for_paths.eq_def, searchMap.eq_def]
  decide

/-- C3 (amended): emitted segments escape the active separator - key
segments escape the backslash and then the separator, anchor-name segments
escape only the separator (shown here for anchor names without a literal
backslash); the structural tokens `[`, `]`, `&` are left unescaped. -/
theorem C3_separator_escaping (sep : Char) (hsep : sep ≠ '\\') :
    (∀ key : String, allEscaped sep (render_key_segment sep key).data = true)
    ∧ (∀ anchor : String, '\\' ∉ anchor.data →
        allEscaped sep (render_anchor_segment sep anchor).data = true) := by
  constructor
  · intro key
    exact allEscaped_escape_double sep hsep key.data
  · intro anchor hmem
    exact allEscaped_escape_nobackslash sep hsep anchor.data hmem

/-- Witness for the amended C3: the dot separator is escaped in a key
segment containing dots and backslashes, and in an anchor-name segment
containing dots. -/
theorem C3_witness :
    allEscaped '.' (render_key_segment '.' "a.b\\c").data = true
    ∧ allEscaped '.' (render_anchor_segment '.' "x.y").data = true :=
  ⟨(C3_separator_escaping '.' (by decide)).1 "a.b\\c",
    (C3_separator_escaping '.' (by decide)).2 "x.y" (by decide)⟩


/-- Filtering the key candidate of one mapping entry by the full match test
leaves exactly the `key_matched` result of `searchMap`. -/
theorem filter_keyCands (ctx : SearchCtx) (tmp name : String) :
    (((if ctx.search_keys then [Candidate.key tmp name] else []).filter
        (candXor ctx)).map Candidate.path)
      = if ctx.search_keys && xorInvert (ctx.matchfn name) ctx.invert
        then [tmp] else [] := by
  rcases hsk : ctx.search_keys <;>
    rcases hx : xorInvert (ctx.matchfn name) ctx.invert <;>
    simp [candXor, Candidate.payload, Candidate.path, hsk, hx]

/-- Filtering one value candidate by the full match test leaves exactly the
tested-value result of `searchMap`. -/
theorem filter_valCand (ctx : SearchCtx) (tmp v : String) :
    (([Candidate.val tmp v]).filter (candXor ctx)).map Candidate.path
      = if xorInvert (ctx.matchfn v) ctx.invert then [tmp] else [] := by
  rcases hx : xorInvert (ctx.matchfn v) ctx.invert <;>
    simp [candXor, Candidate.payload, Candidate.path, hx]

/-- Filtering one element candidate by the full match test leaves exactly
the tested-element result of `searchSeq`. -/
theorem filter_elemCand (ctx : SearchCtx) (tmp v : String) :
    (((if ctx.search_values then [Candidate.elem tmp v] else []).filter
        (candXor ctx)).map Candidate.path)
      = if ctx.search_values then
          if xorInvert (ctx.matchfn v) ctx.invert then [tmp] else []
        else [] := by
  rcases hsv : ctx.search_values <;>
    rcases hx : xorInvert (ctx.matchfn v) ctx.invert <;>
    simp [candXor, Candidate.payload, Candidate.path, hsv, hx]

/-- Pointwise correspondence between the matcher and its instrumented
mirror, simultaneously for all three traversal functions, by strong
induction on the size of the searched structure: the yielded locators are
exactly the tested candidates that pass (matches XOR invert), in order. -/
theorem search_eq_visited_filter (n : Nat) :
    (∀ (d : Node) (ctx : SearchCtx) (bp : String), sizeOf d ≤ n →
        search_for_paths ctx d bp
          = ((visitedNode ctx d bp).filter (candXor ctx)).map Candidate.path)
    ∧ (∀ (l : List Node) (ctx : SearchCtx) (idx : Nat) (seen : List String)
        (bp : String), sizeOf l ≤ n →
        searchSeq ctx l idx seen bp
          = ((visitedSeq ctx l idx seen bp).filter (candXor ctx)).map
              Candidate.path)
    ∧ (∀ (l : List (SKey × Node)) (ctx : SearchCtx) (seen : List String)
        (bp : String), sizeOf l ≤ n →
        searchMap ctx l seen bp
          = ((visitedMap ctx l seen bp).filter (candXor ctx)).map
              Candidate.path) := by
  induction n using Nat.strong_induction_on with
  | _ n IH =>
    refine ⟨?_, ?_, ?_⟩
    · intro d ctx bp hn
      match d with
      | .scalar a v =>
        rw [search_for_paths.eq_def, visitedNode.eq_def]
        rfl
      | .seq a elems =>
        rw [search_for_paths.eq_def, visitedNode.eq_def]
        have hlt : sizeOf elems < n := by
          have hs : sizeOf elems < sizeOf (Node.seq a elems) := by
            simp
          omega
        exact (IH (sizeOf elems) hlt).2.1 elems ctx 0 [] _ le_rfl
      | .map a entries =>
        rw [search_for_paths.eq_def, visitedNode.eq_def]
        have hlt : sizeOf entries < n := by
          have hs : sizeOf entries < sizeOf (Node.map a entries) := by
            simp
          omega
        exact (IH (sizeOf entries) hlt).2.2 entries ctx [] _ le_rfl
    · intro l ctx idx seen bp hn
      match l with
      | [] =>
        rw [searchSeq.eq_def, visitedSeq.eq_def]
        rfl
      | ele :: rest =>
        have hrest : sizeOf rest < n := by
          have hs : sizeOf rest < sizeOf (ele :: rest) := by
            simp
          omega
        have hele : sizeOf ele < n := by
          have hs : sizeOf ele < sizeOf (ele :: rest) := by
            simp
            omega
          omega
        rw [searchSeq.eq_def, visitedSeq.eq_def]
        dsimp only
        by_cases hskip : skipEle ctx seen ele = true
        · simp only [hskip, if_true]
          exact (IH (sizeOf rest) hrest).2.1 rest ctx (idx + 1) seen bp le_rfl
        · simp only [Bool.not_eq_true] at hskip
          simp only [hskip, Bool.false_eq_true, if_false, List.filter_append,
            List.map_append]
          rw [(IH (sizeOf rest) hrest).2.1 rest ctx (idx + 1) (seqSeen seen ele) bp
            le_rfl]
          congr 1
          match ele with
          | .scalar a v => exact (filter_elemCand ctx _ v).symm
          | .seq a elems =>
            exact (IH (sizeOf (Node.seq a elems)) hele).1 (Node.seq a elems) ctx _
              le_rfl
          | .map a entries =>
            exact (IH (sizeOf (Node.map a entries)) hele).1 (Node.map a entries)
              ctx _ le_rfl
    · intro l ctx seen bp hn
      match l with
      | [] =>
        rw [searchMap.eq_def, visitedMap.eq_def]
        rfl
      | (key, val) :: rest =>
        have hrest : sizeOf rest < n := by
          have hs : sizeOf rest < sizeOf ((key, val) :: rest) := by
            simp
          omega
        have hval : sizeOf val < n := by
          have hs : sizeOf val < sizeOf ((key, val) :: rest) := by
            simp
            omega
          omega
        rw [searchMap.eq_def, visitedMap.eq_def]
        dsimp only
        match val with
        | .scalar va v =>
          by_cases hg : (ctx.search_values
              && !(ctx.search_keys && xorInvert (ctx.matchfn key.name) ctx.invert))
                = true
          · simp only [hg, if_true]
            match va with
            | some anchor_name =>
              by_cases hdup : (seen.contains anchor_name && !ctx.include_aliases)
                  = true
              · simp only [hdup, if_true, List.filter_append, List.map_append]
                rw [(IH (sizeOf rest) hrest).2.2 rest ctx seen bp le_rfl]
                congr 1
                exact (filter_keyCands ctx _ key.name).symm
              · simp only [Bool.not_eq_true] at hdup
                simp only [hdup, Bool.false_eq_true, if_false,
                  List.filter_append, List.map_append]
                rw [(IH (sizeOf rest) hrest).2.2 rest ctx _ bp le_rfl]
                congr 1
                congr 1
                · exact (filter_keyCands ctx _ key.name).symm
                · exact (filter_valCand ctx _ v).symm
            | none =>
              simp only [List.filter_append, List.map_append]
              rw [(IH (sizeOf rest) hrest).2.2 rest ctx seen bp le_rfl]
              congr 1
              congr 1
              · exact (filter_keyCands ctx _ key.name).symm
              · exact (filter_valCand ctx _ v).symm
          · simp only [Bool.not_eq_true] at hg
            simp only [hg, Bool.false_eq_true, if_false, List.filter_append,
              List.map_append]
            rw [(IH (sizeOf rest) hrest).2.2 rest ctx seen bp le_rfl]
            congr 1
            exact (filter_keyCands ctx _ key.name).symm
        | .seq a elems =>
          simp only [List.filter_append, List.map_append]
          rw [(IH (sizeOf rest) hrest).2.2 rest ctx seen bp le_rfl,
            (IH (sizeOf (Node.seq a elems)) hval).1 (Node.seq a elems) ctx _
              le_rfl]
          congr 1
          congr 1
          exact (filter_keyCands ctx _ key.name).symm
        | .map a entries =>
          simp only [List.filter_append, List.map_append]
          rw [(IH (sizeOf rest) hrest).2.2 rest ctx seen bp le_rfl,
            (IH (sizeOf (Node.map a entries)) hval).1 (Node.map a entries) ctx _
              le_rfl]
          congr 1
          congr 1
          exact (filter_keyCands ctx _ key.name).symm


/-- The helper `skipEle` only reads the `include_aliases` flag of the context. -/
theorem skipEle_indep (f g : String → Bool) (i j sv sw sk sl : Bool)
    (ia : Bool) (sep sep2 : Sep) (seen : List String) (ele : Node) :
    skipEle ⟨f, i, sv, sk, ia, sep⟩ seen ele
      = skipEle ⟨g, j, sw, sl, ia, sep2⟩ seen ele := by
  cases h : ele.anchorName <;> simp [skipEle, h]

/-- The helper `seqElePath` only reads the separator of the context. -/
theorem seqElePath_indep (f g : String → Bool) (i j sv sw sk sl ia ib : Bool)
    (sep : Sep) (bp : String) (idx : Nat) (ele : Node) :
    seqElePath ⟨f, i, sv, sk, ia, sep⟩ bp idx ele
      = seqElePath ⟨g, j, sw, sl, ib, sep⟩ bp idx ele := by
  cases h : ele.anchorName <;> simp [seqElePath, h]

/-- With `search_keys` disabled the set of candidates the matcher tests is
independent of the predicate and of the `invert` flag (the traversal and
the alias de-duplication consult neither), simultaneously for the three
traversal functions, by strong induction on size. -/
theorem visited_indep (n : Nat) :
    (∀ (d : Node) (f g : String → Bool) (i j sv ia : Bool) (sep : Sep)
        (bp : String), sizeOf d ≤ n →
        visitedNode ⟨f, i, sv, false, ia, sep⟩ d bp
          = visitedNode ⟨g, j, sv, false, ia, sep⟩ d bp)
    ∧ (∀ (l : List Node) (f g : String → Bool) (i j sv ia : Bool) (sep : Sep)
        (idx : Nat) (seen : List String) (bp : String), sizeOf l ≤ n →
        visitedSeq ⟨f, i, sv, false, ia, sep⟩ l idx seen bp
          = visitedSeq ⟨g, j, sv, false, ia, sep⟩ l idx seen bp)
    ∧ (∀ (l : List (SKey × Node)) (f g : String → Bool) (i j sv ia : Bool)
        (sep : Sep) (seen : List String) (bp : String), sizeOf l ≤ n →
        visitedMap ⟨f, i, sv, false, ia, sep⟩ l seen bp
          = visitedMap ⟨g, j, sv, false, ia, sep⟩ l seen bp) := by
  induction n using Nat.strong_induction_on with
  | _ n IH =>
    refine ⟨?_, ?_, ?_⟩
    · intro d f g i j sv ia sep bp hn
      match d with
      | .scalar a v =>
        rw [visitedNode.eq_def, visitedNode.eq_def]
      | .seq a elems =>
        rw [visitedNode.eq_def, visitedNode.eq_def]
        have hlt : sizeOf elems < n := by
          have hs : sizeOf elems < sizeOf (Node.seq a elems) := by
            simp
          omega
        exact (IH (sizeOf elems) hlt).2.1 elems f g i j sv ia sep 0 [] _ le_rfl
      | .map a entries =>
        rw [visitedNode.eq_def, visitedNode.eq_def]
        have hlt : sizeOf entries < n := by
          have hs : sizeOf entries < sizeOf (Node.map a entries) := by
            simp
          omega
        exact (IH (sizeOf entries) hlt).2.2 entries f g i j sv ia sep [] _ le_rfl
    · intro l f g i j sv ia sep idx seen bp hn
      match l with
      | [] =>
        rw [visitedSeq.eq_def, visitedSeq.eq_def]
      | ele :: rest =>
        have hrest : sizeOf rest < n := by
          have hs : sizeOf rest < sizeOf (ele :: rest) := by
            simp
          omega
        have hele : sizeOf ele < n := by
          have hs : sizeOf ele < sizeOf (ele :: rest) := by
            simp
            omega
          omega
        rw [visitedSeq.eq_def, visitedSeq.eq_def]
        dsimp only
        rw [skipEle_indep g f j i sv sv false false ia sep sep seen ele,
          seqElePath_indep g f j i sv sv false false ia ia sep bp idx ele]
        by_cases hskip : skipEle ⟨f, i, sv, false, ia, sep⟩ seen ele = true
        · simp only [hskip, if_true]
          exact (IH (sizeOf rest) hrest).2.1 rest f g i j sv ia sep (idx + 1)
            seen bp le_rfl
        · simp only [Bool.not_eq_true] at hskip
          simp only [hskip, Bool.false_eq_true, if_false]
          rw [(IH (sizeOf rest) hrest).2.1 rest f g i j sv ia sep (idx + 1)
            (seqSeen seen ele) bp le_rfl]
          congr 1
          match ele with
          | .scalar a v => rfl
          | .seq a elems =>
            exact (IH (sizeOf (Node.seq a elems)) hele).1 (Node.seq a elems)
              f g i j sv ia sep _ le_rfl
          | .map a entries =>
            exact (IH (sizeOf (Node.map a entries)) hele).1 (Node.map a entries)
              f g i j sv ia sep _ le_rfl
    · intro l f g i j sv ia sep seen bp hn
      match l with
      | [] =>
        rw [visitedMap.eq_def, visitedMap.eq_def]
      | (key, val) :: rest =>
        have hrest : sizeOf rest < n := by
          have hs : sizeOf rest < sizeOf ((key, val) :: rest) := by
            simp
          omega
        have hval : sizeOf val < n := by
          have hs : sizeOf val < sizeOf ((key, val) :: rest) := by
            simp
            omega
          omega
        rw [visitedMap.eq_def, visitedMap.eq_def]
        dsimp only
        match val with
        | .scalar va v =>
          simp only [Bool.false_and, Bool.not_false, Bool.and_true]
          by_cases hsv : sv = true
          · simp only [hsv, if_true]
            match va with
            | some anchor_name =>
              by_cases hdup : (seen.contains anchor_name && !ia) = true
              · simp only [hdup, if_true]
                rw [(IH (sizeOf rest) hrest).2.2 rest f g i j true ia sep seen bp
                  le_rfl]
              · simp only [Bool.not_eq_true] at hdup
                simp only [hdup, Bool.false_eq_true, if_false]
                rw [(IH (sizeOf rest) hrest).2.2 rest f g i j true ia sep _ bp
                  le_rfl]
            | none =>
              rw [(IH (sizeOf rest) hrest).2.2 rest f g i j true ia sep seen bp
                le_rfl]
          · simp only [Bool.not_eq_true] at hsv
            simp only [hsv, Bool.false_eq_true, if_false]
            rw [(IH (sizeOf rest) hrest).2.2 rest f g i j false ia sep seen bp
              le_rfl]
        | .seq a elems =>
          dsimp only
          rw [(IH (sizeOf rest) hrest).2.2 rest f g i j sv ia sep seen bp le_rfl,
            (IH (sizeOf (Node.seq a elems)) hval).1 (Node.seq a elems)
              f g i j sv ia sep _ le_rfl]
        | .map a entries =>
          dsimp only
          rw [(IH (sizeOf rest) hrest).2.2 rest f g i j sv ia sep seen bp le_rfl,
            (IH (sizeOf (Node.map a entries)) hval).1 (Node.map a entries)
              f g i j sv ia sep _ le_rfl]


/-- Inverting the `invert` flag negates the full match test. -/
theorem xorInvert_not (m i : Bool) : xorInvert m (!i) = !(xorInvert m i) := by
  cases m <;> cases i <;> rfl

/-- Inverting the `invert` flag negates the full match test on every
candidate. -/
theorem candXor_not (f : String → Bool) (i sv sk ia : Bool) (sep : Sep)
    (c : Candidate) :
    candXor ⟨f, !i, sv, sk, ia, sep⟩ c
      = !(candXor ⟨f, i, sv, sk, ia, sep⟩ c) := by
  simp only [candXor]
  exact xorInvert_not (f c.payload) i

/-- C1 counterexample to the claim as stated: on the document whose one
mapping entry is the pair (key `a`, scalar value `a`), searched for
equality with `a` under `searchKeys` and `searchValues`, the inverted run
tests the value candidate (the plain run suppresses it because the key
matched), yet neither run yields it - so the two result sets do not
partition the candidates actually visited under these flags, and the
visited set itself depends on `invert`. -/
theorem C1_counterexample :
    (Candidate.val "a" "a"
        ∈ visitedNode ⟨fun s => s == "a", true, true, true, false, Sep.dot⟩
            (.map none [(⟨none, "a"⟩, .scalar none "a")]) "")
    ∧ (Candidate.val "a" "a"
        ∉ (visitedNode ⟨fun s => s == "a", false, true, true, false, Sep.dot⟩
              (.map none [(⟨none, "a"⟩, .scalar none "a")]) "").filter
            (candXor ⟨fun s => s == "a", false, true, true, false, Sep.dot⟩))
    ∧ (Candidate.val "a" "a"
        ∉ (visitedNode ⟨fun s => s == "a", true, true, true, false, Sep.dot⟩
              (.map none [(⟨none, "a"⟩, .scalar none "a")]) "").filter
            (candXor ⟨fun s => s == "a", true, true, true, false, Sep.dot⟩))
    ∧ visitedNode ⟨fun s => s == "a", false, true, true, false, Sep.dot⟩
          (.map none [(⟨none, "a"⟩, .scalar none "a")]) ""
        ≠ visitedNode ⟨fun s => s == "a", true, true, true, false, Sep.dot⟩
            (.map none [(⟨none, "a"⟩, .scalar none "a")]) "" := by
  refine ⟨?_, ?_, ?_, ?_⟩ <;>
    (simp only [visitedNode.eq_def, visitedMap.eq_def]; decide)

/-- C1 (amended): at every tested candidate a result is yielded iff
(matches XOR invert) - the yielded locators are exactly the tested
candidates passing the full test, in order; no candidate is yielded by
both the plain and the inverted run; and when `searchKeys` is disabled the
two runs test exactly the same candidates, so the two result sets
partition that common visited candidate set (each visited candidate is
yielded by exactly one of the two runs).  With `searchKeys` enabled the
two runs may test different value candidates (see the counterexample). -/
theorem C1_xor_partition :
    (∀ (ctx : SearchCtx) (d : Node) (bp : String),
        search_for_paths ctx d bp
          = ((visitedNode ctx d bp).filter (candXor ctx)).map Candidate.path)
    ∧ (∀ (f : String → Bool) (i sv sk ia : Bool) (sep : Sep) (d : Node)
        (bp : String) (c : Candidate),
        ¬(c ∈ (visitedNode ⟨f, i, sv, sk, ia, sep⟩ d bp).filter
              (candXor ⟨f, i, sv, sk, ia, sep⟩)
          ∧ c ∈ (visitedNode ⟨f, !i, sv, sk, ia, sep⟩ d bp).filter
              (candXor ⟨f, !i, sv, sk, ia, sep⟩)))
    ∧ (∀ (f : String → Bool) (i sv ia : Bool) (sep : Sep) (d : Node)
        (bp : String),
        visitedNode ⟨f, !i, sv, false, ia, sep⟩ d bp
          = visitedNode ⟨f, i, sv, false, ia, sep⟩ d bp)
    ∧ (∀ (f : String → Bool) (i sv ia : Bool) (sep : Sep) (d : Node)
        (bp : String) (c : Candidate),
        c ∈ visitedNode ⟨f, i, sv, false, ia, sep⟩ d bp →
        (c ∈ (visitedNode ⟨f, i, sv, false, ia, sep⟩ d bp).filter
            (candXor ⟨f, i, sv, false, ia, sep⟩)
          ↔ ¬c ∈ (visitedNode ⟨f, !i, sv, false, ia, sep⟩ d bp).filter
              (candXor ⟨f, !i, sv, false, ia, sep⟩))) := by
  refine ⟨?_, ?_, ?_, ?_⟩
  · intro ctx d bp
    exact (search_eq_visited_filter (sizeOf d)).1 d ctx bp le_rfl
  · rintro f i sv sk ia sep d bp c ⟨h1, h2⟩
    rw [List.mem_filter] at h1 h2
    have hx := h2.2
    rw [candXor_not] at hx
    rw [h1.2] at hx
    simp at hx
  · intro f i sv ia sep d bp
    exact (visited_indep (sizeOf d)).1 d f f (!i) i sv ia sep bp le_rfl
  · intro f i sv ia sep d bp c hc
    rw [(visited_indep (sizeOf d)).1 d f f (!i) i sv ia sep bp le_rfl]
    simp [List.mem_filter, hc, candXor_not]

/-- Witness for the amended C1: on the one-element sequence `[20]` searched
for `20` with `searchKeys` off, the tested element candidate is yielded by
the plain run and, equivalently, not by the inverted run. -/
theorem C1_witness :
    Candidate.elem "[0]" "20"
        ∈ (visitedNode ⟨fun s => s == "20", false, true, false, false, Sep.dot⟩
              (.seq none [.scalar none "20"]) "").filter
            (candXor ⟨fun s => s == "20", false, true, false, false, Sep.dot⟩)
      ↔ ¬Candidate.elem "[0]" "20"
        ∈ (visitedNode ⟨fun s => s == "20", !false, true, false, false, Sep.dot⟩
              (.seq none [.scalar none "20"]) "").filter
            (candXor ⟨fun s => s == "20", !false, true, false, false, Sep.dot⟩) := by
  refine C1_xor_partition.2.2.2 (fun s => s == "20") false true false Sep.dot
      (.seq none [.scalar none "20"]) "" (Candidate.elem "[0]" "20") ?_
  simp only [visitedNode.eq_def, visitedSeq.eq_def]
  decide

end YamlPath
